import Mathlib

/-!
Verification model of the MemoApp persistence-and-synchronization layer.

The embedding translates, from the TypeScript/ArkTS sources:
  - model/Memo.ts            (class Memo)          -> structure Memo, Memo.construct
  - database/MemoDao.ts      (class MemoDao)       -> namespace MemoDao
  - database/RdbHelper.ts    (class RdbHelper)     -> namespace RdbHelperModel
  - util/PreferencesHelper.ts                      -> namespace PreferencesHelper
  - viewmodel/MemoViewModel.ts                     -> namespace MemoViewModel

The backing relational store is modelled as a list of rows plus the
autoincrement counter.  Asynchronous store primitives that can reject are
modelled by boolean fault flags in an environment record; a raised error that
escapes a function is an Except.error, a caught one is visible as the
data-shaped value the catch block returns.  Date.now() is modelled by an
explicit clock field of the environment (time is frozen during one call).
-/

namespace MemoApp

/-- A row of the SQL table memo, schema from RdbHelper.ts:
id INTEGER PRIMARY KEY AUTOINCREMENT, title TEXT NOT NULL, content TEXT,
created_date INTEGER NOT NULL, modified_date INTEGER NOT NULL. -/
structure Row where
  id : Int
  title : String
  content : String
  created_date : Nat
  modified_date : Nat
  deriving DecidableEq, Repr

/-- The Memo entity of model/Memo.ts. The id is optional: absent until the
store assigns one. -/
structure Memo where
  id : Option Int
  title : String
  content : String
  createdDate : Nat
  modifiedDate : Nat
  deriving DecidableEq, Repr

/-- The Memo constructor: constructor(title, content, id?, createdDate?,
modifiedDate?). Missing createdDate and modifiedDate default to Date.now(),
modelled by the explicit argument now. -/
def Memo.construct (title content : String) (id : Option Int)
    (createdDate modifiedDate : Option Nat) (now : Nat) : Memo :=
  { id := id, title := title, content := content,
    createdDate := createdDate.getD now, modifiedDate := modifiedDate.getD now }

/-- State of the backing relational store: the rows of the memo table and the
next AUTOINCREMENT identity (SQLite starts at 1). -/
structure DbState where
  rows : List Row
  nextId : Int
  deriving DecidableEq, Repr

/-- Fault-injection environment for one call into the layer.  Each flag says
whether the corresponding asynchronous store primitive rejects when reached;
now models Date.now(). parseFaultAt k means reading column values of the
k-th row of a result set throws. -/
structure Env where
  openFails : Bool
  insertFault : Bool
  queryFault : Bool
  updateFault : Bool
  deleteFault : Bool
  parseFaultAt : Option Nat
  now : Nat
  prefOpenFails : Bool
  prefPutTitleFault : Bool
  prefPutContentFault : Bool
  prefFlushFault : Bool
  prefGetTitleFault : Bool
  prefGetContentFault : Bool
  deriving DecidableEq, Repr

/-- Cursor accounting for one DAO call: how many result sets were obtained
from store.query and how many were closed before the call returned. -/
structure CTrace where
  obtained : Nat
  released : Nat
  deriving DecidableEq, Repr

/-- Decidable equality for results of fallible calls, so concrete runs can be
checked by decide. -/
instance {ε α : Type} [DecidableEq ε] [DecidableEq α] : DecidableEq (Except ε α) := fun x y =>
  match x, y with
  | Except.ok a, Except.ok b => decidable_of_iff (a = b) (by simp)
  | Except.ok _, Except.error _ => Decidable.isFalse (by simp)
  | Except.error _, Except.ok _ => Decidable.isFalse (by simp)
  | Except.error d, Except.error e => decidable_of_iff (d = e) (by simp)

/-- Decoding one row into a Memo, as done column by column in
MemoDao.parseResultSet and MemoDao.queryMemoById. -/
def rowToMemo (r : Row) : Memo :=
  { id := some r.id, title := r.title, content := r.content,
    createdDate := r.created_date, modifiedDate := r.modified_date }

/-- Descending modified-date order used by orderByDesc in the DAO queries. -/
def rowDescRel (a b : Row) : Prop :=
  b.modified_date ≤ a.modified_date

instance : DecidableRel rowDescRel := fun a b => Nat.decLe b.modified_date a.modified_date

instance : IsTotal Row rowDescRel :=
  ⟨fun a b => Nat.le_total b.modified_date a.modified_date⟩

instance : IsTrans Row rowDescRel :=
  ⟨fun _ _ _ h1 h2 => Nat.le_trans h2 h1⟩

/-- ORDER BY modified_date DESC over a row multiset, with deterministic
(stable) tie-breaking. -/
def sortByModifiedDesc (rows : List Row) : List Row :=
  List.insertionSort rowDescRel rows

/-- SQL LIKE pattern matching as performed by the store for
predicates.like: percent matches any sequence, underscore any single
character, ordinary characters compare ignoring ASCII letter case
(SQLite LIKE is case-insensitive, and MemoDao documents the search as
case-insensitive). -/
def likeAux : List Char → List Char → Bool
  | [], s => s.isEmpty
  | pc :: p, s =>
    if pc = '%' then
      s.tails.any (fun t => likeAux p t)
    else if pc = '_' then
      match s with
      | [] => false
      | _ :: t => likeAux p t
    else
      match s with
      | [] => false
      | c :: t => (pc.toLower == c.toLower) && likeAux p t

/-- The LIKE pattern built by MemoDao.queryMemosByTitle: a percent on both
sides of the keyword. -/
def likePattern (kw : String) : List Char :=
  '%' :: (kw.toList ++ ['%'])

/-- Whether a title matches the LIKE percent-keyword-percent pattern. -/
def likeMatch (title kw : String) : Bool :=
  likeAux (likePattern kw) title.toList

/-- Literal (case-sensitive) substring containment, used to state the
substring reading of search claims. -/
def containsSub (kw : List Char) : List Char → Bool
  | [] => kw.isEmpty
  | c :: t => ((c :: t).take kw.length == kw) || containsSub kw t

/-- Substring containment ignoring ASCII letter case. -/
def containsCI (hay kw : String) : Bool :=
  containsSub (kw.toList.map Char.toLower) (hay.toList.map Char.toLower)

/-- Literal substring containment on strings (the reading a case-sensitive
claim about search results denotes). -/
def subStr (hay kw : String) : Bool :=
  containsSub kw.toList hay.toList

namespace MemoDao

/-- Handle acquisition as seen by one DAO call: rdbHelper.getRdbStore either
yields the memoized handle or rejects; the DAO methods await it outside
their try blocks, so a rejection escapes the method. -/
def getRdbStore (env : Env) : Except String Unit :=
  if env.openFails then Except.error "Failed to get RDB store" else Except.ok ()

/-- MemoDao.parseResultSet: decodes rows until a column read throws
(returning the memos accumulated so far), and closes the result set in a
finally block on every path.  The returned flag records that the close ran. -/
def parseResultSet (env : Env) (rs : List Row) : List Memo × Bool :=
  match env.parseFaultAt with
  | some k => ((rs.take k).map rowToMemo, true)
  | none => (rs.map rowToMemo, true)

/-- MemoDao.addMemo: inserts title, content, created_date and modified_date
(the id of the argument is ignored); returns the store-assigned row id, or
-1 when the insert rejects (caught). A handle-acquisition failure escapes. -/
def addMemo (env : Env) (st : DbState) (memo : Memo) : Except String (Int × DbState) := do
  let _ ← getRdbStore env
  if env.insertFault then
    return (-1, st)
  else
    let row : Row :=
      { id := st.nextId, title := memo.title, content := memo.content,
        created_date := memo.createdDate, modified_date := memo.modifiedDate }
    return (st.nextId, { rows := st.rows ++ [row], nextId := st.nextId + 1 })

/-- MemoDao.queryAllMemos: every row ordered by modified_date descending;
a rejected query is caught and degrades to the empty list (no cursor was
obtained on that path). -/
def queryAllMemos (env : Env) (st : DbState) : Except String (List Memo × CTrace) := do
  let _ ← getRdbStore env
  if env.queryFault then
    return ([], ⟨0, 0⟩)
  else
    let parsed := parseResultSet env (sortByModifiedDesc st.rows)
    return (parsed.1, ⟨1, if parsed.2 then 1 else 0⟩)

/-- MemoDao.queryMemosByTitle: an empty keyword (falsy string) delegates to
queryAllMemos; otherwise rows matching LIKE percent-keyword-percent ordered
by modified_date descending; a rejected query degrades to the empty list. -/
def queryMemosByTitle (env : Env) (st : DbState) (keyword : String) :
    Except String (List Memo × CTrace) := do
  if keyword.isEmpty then
    queryAllMemos env st
  else
    let _ ← getRdbStore env
    if env.queryFault then
      return ([], ⟨0, 0⟩)
    else
      let parsed := parseResultSet env
        (sortByModifiedDesc (st.rows.filter (fun r => likeMatch r.title keyword)))
      return (parsed.1, ⟨1, if parsed.2 then 1 else 0⟩)

/-- MemoDao.updateMemo: returns 0 when the argument has no id (checked before
the handle is acquired); otherwise overwrites title, content and
modified_date (set to Date.now(), not to the argument's modifiedDate) on the
rows whose id matches; a rejected update is caught and reported as 0. -/
def updateMemo (env : Env) (st : DbState) (memo : Memo) : Except String (Nat × DbState) :=
  match memo.id with
  | none => Except.ok (0, st)
  | some i => do
    let _ ← getRdbStore env
    if env.updateFault then
      return (0, st)
    else
      let affected := (st.rows.filter (fun r => r.id == i)).length
      let rows' := st.rows.map (fun r =>
        if r.id == i then
          { r with title := memo.title, content := memo.content, modified_date := env.now }
        else r)
      return (affected, { st with rows := rows' })

/-- MemoDao.deleteMemo: removes the rows whose id matches and returns how
many; a rejected delete is caught and reported as 0. -/
def deleteMemo (env : Env) (st : DbState) (i : Int) : Except String (Nat × DbState) := do
  let _ ← getRdbStore env
  if env.deleteFault then
    return (0, st)
  else
    let affected := (st.rows.filter (fun r => r.id == i)).length
    return (affected, { st with rows := st.rows.filter (fun r => !(r.id == i)) })

/-- MemoDao.queryMemoById: the first row whose id matches, or none when no
row matches, the query rejects, or decoding the row throws; the result set
is closed in a finally block whenever one was obtained. -/
def queryMemoById (env : Env) (st : DbState) (i : Int) :
    Except String (Option Memo × CTrace) := do
  let _ ← getRdbStore env
  if env.queryFault then
    return (none, ⟨0, 0⟩)
  else
    match st.rows.filter (fun r => r.id == i) with
    | [] => return (none, ⟨1, 1⟩)
    | r :: _ =>
      match env.parseFaultAt with
      | some 0 => return (none, ⟨1, 1⟩)
      | _ => return (some (rowToMemo r), ⟨1, 1⟩)

end MemoDao

namespace RdbHelperModel

/-!
Interleaving model of RdbHelper.getRdbStore.  The method body is
  if (!this.rdbStore) { this.rdbStore = await relationalStore.getRdbStore(...) }
  return this.rdbStore!
Execution is cooperatively scheduled JS: a caller runs synchronously from the
null-check up to the await (one step), suspends there, and on resumption
stores the freshly opened handle and returns it (second step).  A caller that
finds the field already populated returns it in a single synchronous step.
Handles are numbered by the open call that produced them, so distinct open
sequences yield distinct handles.
-/

/-- Progress of one caller of getRdbStore: not yet run, suspended at the
await of the underlying open call, or returned with a handle. -/
inductive TaskPC where
  | ready
  | opening
  | finished (handle : Nat)
  deriving DecidableEq, Repr

/-- Shared state: the memoized rdbStore field, how many open sequences have
executed, and each caller's progress. -/
structure RaceState where
  rdbStore : Option Nat
  openCount : Nat
  tasks : List TaskPC
  deriving DecidableEq, Repr

/-- One scheduling step of caller i: run its next synchronous segment of
getRdbStore. -/
def stepTask (s : RaceState) (i : Nat) : RaceState :=
  match s.tasks[i]? with
  | none => s
  | some TaskPC.ready =>
    match s.rdbStore with
    | some h => { s with tasks := s.tasks.set i (TaskPC.finished h) }
    | none => { s with tasks := s.tasks.set i TaskPC.opening }
  | some TaskPC.opening =>
    let h := s.openCount + 1
    { rdbStore := some h, openCount := s.openCount + 1,
      tasks := s.tasks.set i (TaskPC.finished h) }
  | some (TaskPC.finished _) => s

/-- Run a schedule: a list of caller indices, each given one step in turn. -/
def run (sched : List Nat) (s : RaceState) : RaceState :=
  sched.foldl stepTask s

/-- Initial state for two concurrent first callers of getRdbStore. -/
def twoCallers : RaceState :=
  { rdbStore := none, openCount := 0, tasks := [TaskPC.ready, TaskPC.ready] }

end RdbHelperModel

namespace PreferencesHelper

/-- PreferenceHelper state: the values stored under title_font_size and
content_font_size in the memo_settings file. -/
structure PrefState where
  titleFont : Option Nat
  contentFont : Option Nat
  deriving DecidableEq, Repr

/-- PreferencesHelper.getPreferences: yields the memoized preferences handle
or rejects when the underlying open rejects. -/
def getPreferences (env : Env) : Except String Unit :=
  if env.prefOpenFails then Except.error "Failed to get Preferences" else Except.ok ()

/-- PreferencesHelper.saveFontSizes: acquires the handle, puts both keys, then
flushes, all inside one try block whose catch only logs, so every failure --
including a handle acquisition failure -- returns normally; the state reflects
the puts that completed before the failure. -/
def saveFontSizes (env : Env) (ps : PrefState) (titleSize contentSize : Nat) :
    Except String PrefState :=
  if env.prefOpenFails then Except.ok ps
  else if env.prefPutTitleFault then Except.ok ps
  else
    let ps1 : PrefState := { ps with titleFont := some titleSize }
    if env.prefPutContentFault then Except.ok ps1
    else
      let ps2 : PrefState := { ps1 with contentFont := some contentSize }
      Except.ok ps2

/-- PreferencesHelper.loadFontSizes: reads both keys with defaults 18 and 14;
the whole body is inside a try block whose catch only logs, so any failure
returns normally with defaults substituted for the reads that did not
complete. -/
def loadFontSizes (env : Env) (ps : PrefState) : Except String (Nat × Nat) :=
  if env.prefOpenFails then Except.ok (18, 14)
  else if env.prefGetTitleFault then Except.ok (18, 14)
  else
    let t := ps.titleFont.getD 18
    if env.prefGetContentFault then Except.ok (t, 14)
    else Except.ok (t, ps.contentFont.getD 14)

end PreferencesHelper

/-- The MemoViewModel fields visible to the presentation layer, plus whether
a context was bound. -/
structure VM where
  memos : List Memo
  titleFontSize : Nat
  contentFontSize : Nat
  isLoading : Bool
  searchKeyword : String
  currentMemo : Option Memo
  ctxBound : Bool
  deriving DecidableEq, Repr

/-- The list of memos a search with the given keyword derives from the store:
the query result, or the empty list when the query call rejects (caught by
MemoViewModel.searchMemos). -/
def memosFor (env : Env) (st : DbState) (kw : String) : List Memo :=
  match MemoDao.queryMemosByTitle env st kw.trim with
  | Except.ok (ms, _) => ms
  | Except.error _ => []

namespace MemoViewModel

/-- MemoViewModel.searchMemos: no-op without a context; otherwise sets
isLoading, stores the trimmed keyword, queries by keyword, replaces memos
with the result (or empties it when the call rejects), and clears isLoading
in a finally block. -/
def searchMemos (env : Env) (st : DbState) (vm : VM) (keyword : String) : VM :=
  if vm.ctxBound = false then vm
  else
    let vm1 : VM := { vm with isLoading := true, searchKeyword := keyword.trim }
    match MemoDao.queryMemosByTitle env st vm1.searchKeyword with
    | Except.ok (ms, _) => { vm1 with memos := ms, isLoading := false }
    | Except.error _ => { vm1 with memos := [], isLoading := false }

/-- MemoViewModel.loadMemoById: no-op without a context; otherwise sets
isLoading, queries by id, stores the result (none on rejection) into
currentMemo, and clears isLoading in a finally block. -/
def loadMemoById (env : Env) (st : DbState) (vm : VM) (i : Int) : VM :=
  if vm.ctxBound = false then vm
  else
    let vm1 : VM := { vm with isLoading := true }
    match MemoDao.queryMemoById env st i with
    | Except.ok (res, _) => { vm1 with currentMemo := res, isLoading := false }
    | Except.error _ => { vm1 with currentMemo := none, isLoading := false }

/-- MemoViewModel.prepareNewMemo: clears currentMemo. -/
def prepareNewMemo (vm : VM) : VM :=
  { vm with currentMemo := none }

/-- Edit arm of MemoViewModel.saveCurrentMemo: builds a Memo carrying the
original id and createdDate and a fresh modifiedDate, calls
MemoDao.updateMemo, succeeds iff the affected count is positive, and on
success refreshes the list through searchMemos with the current keyword. -/
def saveEditArm (env : Env) (st : DbState) (vm1 : VM) (title content : String)
    (m : Memo) (i : Int) : Bool × VM × DbState :=
  let updated := Memo.construct title content (some i) (some m.createdDate) (some env.now) env.now
  match MemoDao.updateMemo env st updated with
  | Except.ok (n, st') =>
    if 0 < n then
      let vm2 := searchMemos env st' vm1 vm1.searchKeyword
      (true, { vm2 with isLoading := false }, st')
    else (false, { vm1 with isLoading := false }, st')
  | Except.error _ => (false, { vm1 with isLoading := false }, st)

/-- Add arm of MemoViewModel.saveCurrentMemo: builds a new Memo from title and
content, calls MemoDao.addMemo, succeeds iff the returned row id is positive,
and on success refreshes the list through searchMemos with the current
keyword. -/
def saveAddArm (env : Env) (st : DbState) (vm1 : VM) (title content : String) :
    Bool × VM × DbState :=
  let newMemo := Memo.construct title content none none none env.now
  match MemoDao.addMemo env st newMemo with
  | Except.ok (rid, st') =>
    if 0 < rid then
      let vm2 := searchMemos env st' vm1 vm1.searchKeyword
      (true, { vm2 with isLoading := false }, st')
    else (false, { vm1 with isLoading := false }, st')
  | Except.error _ => (false, { vm1 with isLoading := false }, st)

/-- MemoViewModel.saveCurrentMemo: returns false without a context; otherwise
sets isLoading and branches on currentMemo being present AND carrying a
defined id (edit arm) versus everything else (add arm); a rejected DAO call
is caught and reported as false; isLoading is cleared in a finally block. -/
def saveCurrentMemo (env : Env) (st : DbState) (vm : VM) (title content : String) :
    Bool × VM × DbState :=
  if vm.ctxBound = false then (false, vm, st)
  else
    let vm1 : VM := { vm with isLoading := true }
    match vm1.currentMemo with
    | some m =>
      match m.id with
      | some i => saveEditArm env st vm1 title content m i
      | none => saveAddArm env st vm1 title content
    | none => saveAddArm env st vm1 title content

/-- MemoViewModel.deleteMemo: no-op without a context; otherwise deletes by
id and, when the affected count is positive, refreshes the list through
searchMemos with the current keyword; isLoading is cleared in a finally
block. -/
def deleteMemo (env : Env) (st : DbState) (vm : VM) (i : Int) : VM × DbState :=
  if vm.ctxBound = false then (vm, st)
  else
    let vm1 : VM := { vm with isLoading := true }
    match MemoDao.deleteMemo env st i with
    | Except.ok (n, st') =>
      if 0 < n then
        let vm2 := searchMemos env st' vm1 vm1.searchKeyword
        ({ vm2 with isLoading := false }, st')
      else ({ vm1 with isLoading := false }, st')
    | Except.error _ => ({ vm1 with isLoading := false }, st)

/-- MemoViewModel.loadFontSizes: no-op without a context; otherwise reads the
font sizes from the preference store (that call never rejects) into the two
font-size fields. -/
def loadFontSizes (env : Env) (ps : PreferencesHelper.PrefState) (vm : VM) : VM :=
  if vm.ctxBound = false then vm
  else
    match PreferencesHelper.loadFontSizes env ps with
    | Except.ok (t, c) => { vm with titleFontSize := t, contentFontSize := c }
    | Except.error _ => vm

/-- MemoViewModel.loadInitialData: no-op without a context; otherwise sets
isLoading, loads the font sizes, searches with the current keyword, and
clears isLoading in a finally block. -/
def loadInitialData (env : Env) (st : DbState) (ps : PreferencesHelper.PrefState)
    (vm : VM) : VM :=
  if vm.ctxBound = false then vm
  else
    let vm1 : VM := { vm with isLoading := true }
    let vm2 := loadFontSizes env ps vm1
    let vm3 := searchMemos env st vm2 vm2.searchKeyword
    { vm3 with isLoading := false }

end MemoViewModel

/-- Keywords containing no LIKE metacharacter (percent or underscore). -/
def wildcardFreeL (kw : List Char) : Bool :=
  kw.all (fun c => !(c == '%') && !(c == '_'))

/-- Keywords containing no LIKE metacharacter, on strings. -/
def wildcardFree (kw : String) : Bool :=
  wildcardFreeL kw.toList

/-- The cursor accounting of a DAO read call; a rejected call obtained no
cursor. -/
def cursorTrace {α : Type} (r : Except String (α × CTrace)) : CTrace :=
  match r with
  | Except.ok (_, t) => t
  | Except.error _ => ⟨0, 0⟩

/-- Environment with no faults and clock value 100. -/
def envOk : Env :=
  { openFails := false, insertFault := false, queryFault := false,
    updateFault := false, deleteFault := false, parseFaultAt := none, now := 100,
    prefOpenFails := false, prefPutTitleFault := false, prefPutContentFault := false,
    prefFlushFault := false, prefGetTitleFault := false, prefGetContentFault := false }

/-- Environment whose preference-file open rejects. -/
def envPrefOpenFail : Env :=
  { envOk with prefOpenFails := true }

/-- Store holding a single note titled Alpha. -/
def stAlphaOne : DbState :=
  { rows := [⟨1, "Alpha", "note", 0, 5⟩], nextId := 2 }

/-- Store holding a single note whose title is the upper-case letter A. -/
def stUpperA : DbState :=
  { rows := [⟨1, "A", "", 0, 3⟩], nextId := 2 }

/-- Store holding notes titled Alpha, Beta and Alphabet. -/
def stAlpha3 : DbState :=
  { rows := [⟨1, "Alpha", "", 0, 5⟩, ⟨2, "Beta", "", 0, 9⟩, ⟨3, "Alphabet", "", 0, 7⟩],
    nextId := 4 }

/-- Empty preference state (fresh file). -/
def psEmpty : PreferencesHelper.PrefState :=
  ⟨none, none⟩

/-- A memo being edited: persisted id 1, created at 7. -/
def memoEdit : Memo :=
  ⟨some 1, "old title", "old content", 7, 7⟩

/-- ViewModel state editing memoEdit, context bound. -/
def vmEdit : VM :=
  { memos := [], titleFontSize := 18, contentFontSize := 14, isLoading := false,
    searchKeyword := "", currentMemo := some memoEdit, ctxBound := true }

/-- ViewModel state whose currentMemo is present but carries no id. -/
def vmEditNoId : VM :=
  { memos := [], titleFontSize := 18, contentFontSize := 14, isLoading := false,
    searchKeyword := "", currentMemo := some (Memo.construct "draft" "body" none none none 50),
    ctxBound := true }

/-- ViewModel state with no current memo, context bound. -/
def vmFresh : VM :=
  { memos := [], titleFontSize := 18, contentFontSize := 14, isLoading := false,
    searchKeyword := "", currentMemo := none, ctxBound := true }

/-!
Theorems.  Each claim of the specification is settled by one theorem below
(plus a counterexample where the claim as stated fails on the code).
-/

/-- C6 (amended): for the empty keyword, queryMemosByTitle delegates to
queryAllMemos and returns exactly its result, in every environment and on
every store. -/
theorem empty_keyword_queryAll (env : Env) (st : DbState) :
    MemoDao.queryMemosByTitle env st "" = MemoDao.queryAllMemos env st := rfl

/-- C6 (counterexample): a blank, whitespace-only keyword is truthy, so the
code takes the LIKE path rather than the queryAllMemos path: on a store
holding one note titled Alpha, the one-space keyword returns the empty list
while queryAllMemos returns that note, so the two differ. -/
theorem blank_keyword_cex :
    MemoDao.queryMemosByTitle envOk stAlphaOne " " = Except.ok ([], ⟨1, 1⟩) ∧
    MemoDao.queryAllMemos envOk stAlphaOne =
      Except.ok ([rowToMemo ⟨1, "Alpha", "note", 0, 5⟩], ⟨1, 1⟩) ∧
    MemoDao.queryMemosByTitle envOk stAlphaOne " " ≠
      MemoDao.queryAllMemos envOk stAlphaOne := by
  refine ⟨by decide, by decide, by decide⟩

/-- C5 (counterexample): two first calls to getRdbStore whose null-checks
both run before either open resolves each execute the open sequence; the
schedule below interleaves callers 0 and 1 and ends with two opens executed
and the callers holding different handles. -/
theorem getRdbStore_race_cex :
    (RdbHelperModel.run [0, 1, 0, 1] RdbHelperModel.twoCallers).openCount = 2 ∧
    (RdbHelperModel.run [0, 1, 0, 1] RdbHelperModel.twoCallers).tasks =
      [RdbHelperModel.TaskPC.finished 1, RdbHelperModel.TaskPC.finished 2] := by
  decide

/-- C5 (amended): once a first call has completed, the handle is memoized: a
caller finding the field populated finishes in one synchronous step with that
same handle and no further open sequence; in particular a second caller
scheduled entirely after the first observes the first caller's handle and the
open count stays at one. -/
theorem getRdbStore_memoized :
    (∀ s : RdbHelperModel.RaceState, ∀ i h, s.rdbStore = some h →
      s.tasks[i]? = some RdbHelperModel.TaskPC.ready →
      (RdbHelperModel.stepTask s i).openCount = s.openCount ∧
      (RdbHelperModel.stepTask s i).rdbStore = s.rdbStore ∧
      (RdbHelperModel.stepTask s i).tasks =
        s.tasks.set i (RdbHelperModel.TaskPC.finished h)) ∧
    ((RdbHelperModel.run [0, 0, 1] RdbHelperModel.twoCallers).openCount = 1 ∧
      (RdbHelperModel.run [0, 0, 1] RdbHelperModel.twoCallers).tasks =
        [RdbHelperModel.TaskPC.finished 1, RdbHelperModel.TaskPC.finished 1]) := by
  constructor
  · intro s i h hs ht
    simp [RdbHelperModel.stepTask, ht, hs]
  · constructor <;> decide

/-- Witness for getRdbStore_memoized at a concrete one-caller state holding
handle 7. -/
theorem getRdbStore_memoized_witness :
    (RdbHelperModel.stepTask ⟨some 7, 1, [RdbHelperModel.TaskPC.ready]⟩ 0).openCount = 1 ∧
    (RdbHelperModel.stepTask ⟨some 7, 1, [RdbHelperModel.TaskPC.ready]⟩ 0).rdbStore = some 7 ∧
    (RdbHelperModel.stepTask ⟨some 7, 1, [RdbHelperModel.TaskPC.ready]⟩ 0).tasks =
      [RdbHelperModel.TaskPC.ready].set 0 (RdbHelperModel.TaskPC.finished 7) :=
  getRdbStore_memoized.1 ⟨some 7, 1, [RdbHelperModel.TaskPC.ready]⟩ 0 7 rfl rfl

/-- C8: every DAO read balances cursor release against cursor acquisition on
every path -- success, empty result, query rejection, and a throw while
decoding rows -- across all fault environments, stores and inputs. -/
theorem cursors_balanced (env : Env) (st : DbState) (kw : String) (i : Int) :
    (cursorTrace (MemoDao.queryAllMemos env st)).released =
      (cursorTrace (MemoDao.queryAllMemos env st)).obtained ∧
    (cursorTrace (MemoDao.queryMemosByTitle env st kw)).released =
      (cursorTrace (MemoDao.queryMemosByTitle env st kw)).obtained ∧
    (cursorTrace (MemoDao.queryMemoById env st i)).released =
      (cursorTrace (MemoDao.queryMemoById env st i)).obtained := by
  obtain ⟨o, ins, q, u, d, pf, nw, b1, b2, b3, b4, b5, b6⟩ := env
  refine ⟨?_, ?_, ?_⟩
  · cases o <;> cases q <;> rcases pf with _ | k <;>
      simp [MemoDao.queryAllMemos, MemoDao.getRdbStore, MemoDao.parseResultSet,
        cursorTrace, bind, Except.bind, pure, Except.pure]
  · cases hk : kw.isEmpty <;> cases o <;> cases q <;> rcases pf with _ | k <;>
      simp [MemoDao.queryMemosByTitle, MemoDao.queryAllMemos, MemoDao.getRdbStore,
        MemoDao.parseResultSet, cursorTrace, bind, Except.bind, pure, Except.pure, hk]
  · cases o <;> cases q <;> rcases pf with _ | ⟨_ | k⟩ <;>
      rcases hf : st.rows.filter (fun r => r.id == i) with _ | ⟨r, rest⟩ <;>
      simp [MemoDao.queryMemoById, MemoDao.getRdbStore, cursorTrace, bind, Except.bind, pure, Except.pure, hf]

/-- C4: with the handle available, no read operation ever propagates a raised
error, whatever store faults occur; and under a query fault the reads return
the empty list and the absent value respectively, indistinguishable from
genuinely empty results. -/
theorem read_ops_degrade (env : Env) (st : DbState) (kw : String) (i : Int)
    (ho : env.openFails = false) :
    (MemoDao.queryAllMemos env st).isOk = true ∧
    (MemoDao.queryMemosByTitle env st kw).isOk = true ∧
    (MemoDao.queryMemoById env st i).isOk = true ∧
    (env.queryFault = true →
      (∃ tr, MemoDao.queryAllMemos env st = Except.ok ([], tr)) ∧
      (∃ tr, MemoDao.queryMemosByTitle env st kw = Except.ok ([], tr)) ∧
      (∃ tr, MemoDao.queryMemoById env st i = Except.ok (none, tr))) := by
  obtain ⟨o, ins, q, u, d, pf, nw, b1, b2, b3, b4, b5, b6⟩ := env
  cases ho
  refine ⟨?_, ?_, ?_, ?_⟩
  · cases q <;> rcases pf with _ | k <;>
      simp [MemoDao.queryAllMemos, MemoDao.getRdbStore, MemoDao.parseResultSet,
        Except.isOk, Except.toBool, bind, Except.bind, pure, Except.pure]
  · cases hk : kw.isEmpty <;> cases q <;> rcases pf with _ | k <;>
      simp [MemoDao.queryMemosByTitle, MemoDao.queryAllMemos, MemoDao.getRdbStore,
        MemoDao.parseResultSet, Except.isOk, Except.toBool, bind, Except.bind,
        pure, Except.pure, hk]
  · cases q <;> rcases pf with _ | ⟨_ | k⟩ <;>
      rcases hf : st.rows.filter (fun r => r.id == i) with _ | ⟨r, rest⟩ <;>
      simp [MemoDao.queryMemoById, MemoDao.getRdbStore, Except.isOk, Except.toBool,
        bind, Except.bind, pure, Except.pure, hf]
  · intro hq
    cases hq
    refine ⟨⟨⟨0, 0⟩, ?_⟩, ⟨⟨0, 0⟩, ?_⟩, ⟨⟨0, 0⟩, ?_⟩⟩
    · simp [MemoDao.queryAllMemos, MemoDao.getRdbStore, bind, Except.bind, pure, Except.pure]
    · cases hk : kw.isEmpty <;>
        simp [MemoDao.queryMemosByTitle, MemoDao.queryAllMemos, MemoDao.getRdbStore,
          bind, Except.bind, pure, Except.pure, hk]
    · simp [MemoDao.queryMemoById, MemoDao.getRdbStore, bind, Except.bind, pure, Except.pure]

/-- Witness for read_ops_degrade: a query fault with the handle available on
the Alpha store degrades every read to an empty or absent result. -/
theorem read_ops_degrade_witness :
    (MemoDao.queryAllMemos { envOk with queryFault := true } stAlphaOne).isOk = true ∧
    (MemoDao.queryMemosByTitle { envOk with queryFault := true } stAlphaOne "Al").isOk = true ∧
    (MemoDao.queryMemoById { envOk with queryFault := true } stAlphaOne 1).isOk = true ∧
    (({ envOk with queryFault := true } : Env).queryFault = true →
      (∃ tr, MemoDao.queryAllMemos { envOk with queryFault := true } stAlphaOne =
        Except.ok ([], tr)) ∧
      (∃ tr, MemoDao.queryMemosByTitle { envOk with queryFault := true } stAlphaOne "Al" =
        Except.ok ([], tr)) ∧
      (∃ tr, MemoDao.queryMemoById { envOk with queryFault := true } stAlphaOne 1 =
        Except.ok (none, tr))) :=
  read_ops_degrade { envOk with queryFault := true } stAlphaOne "Al" 1 rfl

/-- C1: on a well-formed store (every row id below the autoincrement
counter), with no faults, adding a newly constructed note and querying by
the returned identity yields a present note whose title and content equal
the inputs and whose createdDate equals its modifiedDate. -/
theorem add_then_queryById (env : Env) (st : DbState) (title content : String)
    (hwf : ∀ r ∈ st.rows, r.id < st.nextId)
    (ho : env.openFails = false) (hi : env.insertFault = false)
    (hq : env.queryFault = false) (hp : env.parseFaultAt = none) :
    ∃ rid st',
      MemoDao.addMemo env st (Memo.construct title content none none none env.now) =
        Except.ok (rid, st') ∧
      ∃ m tr, MemoDao.queryMemoById env st' rid = Except.ok (some m, tr) ∧
        m.title = title ∧ m.content = content ∧ m.createdDate = m.modifiedDate := by
  refine ⟨st.nextId,
    { rows := st.rows ++ [⟨st.nextId, title, content, env.now, env.now⟩],
      nextId := st.nextId + 1 }, ?_, ?_⟩
  · simp [MemoDao.addMemo, MemoDao.getRdbStore, ho, hi, bind, Except.bind, pure,
      Except.pure, Memo.construct]
  · have hfilter : st.rows.filter (fun r => r.id == st.nextId) = [] := by
      rw [List.filter_eq_nil_iff]
      intro r hr
      have := hwf r hr
      simp only [beq_iff_eq]
      omega
    refine ⟨rowToMemo ⟨st.nextId, title, content, env.now, env.now⟩, ⟨1, 1⟩, ?_, rfl, rfl, rfl⟩
    simp [MemoDao.queryMemoById, MemoDao.getRdbStore, ho, hq, hp, bind, Except.bind,
      pure, Except.pure, List.filter_append, hfilter]

/-- Witness for add_then_queryById on the empty store with clock 100. -/
theorem add_then_queryById_witness :
    ∃ rid st',
      MemoDao.addMemo envOk { rows := [], nextId := 1 }
          (Memo.construct "shopping" "milk" none none none envOk.now) =
        Except.ok (rid, st') ∧
      ∃ m tr, MemoDao.queryMemoById envOk st' rid = Except.ok (some m, tr) ∧
        m.title = "shopping" ∧ m.content = "milk" ∧ m.createdDate = m.modifiedDate :=
  add_then_queryById envOk { rows := [], nextId := 1 } "shopping" "milk"
    (by intro r hr; cases hr) rfl rfl rfl rfl

/-- C2: a successful update (argument carrying an id, store timestamps not in
the future of the clock) overwrites title and content, stamps modified_date
with the clock value of the call -- independent of the modifiedDate field of
the note argument -- so the new value is at least the previous one, and
leaves created_date and id of every row unchanged; the affected count is the
number of rows carrying the id. -/
theorem updateMemo_overwrites (env : Env) (st : DbState) (memo : Memo) (i : Int)
    (hid : memo.id = some i) (ho : env.openFails = false) (hu : env.updateFault = false)
    (hmono : ∀ r ∈ st.rows, r.id = i → r.modified_date ≤ env.now) :
    ∃ st',
      MemoDao.updateMemo env st memo =
        Except.ok ((st.rows.filter (fun r => r.id == i)).length, st') ∧
      List.Forall₂ (fun old new : Row =>
        (old.id = i →
          new.title = memo.title ∧ new.content = memo.content ∧
          new.modified_date = env.now ∧ old.modified_date ≤ new.modified_date ∧
          new.created_date = old.created_date ∧ new.id = old.id) ∧
        (old.id ≠ i → new = old)) st.rows st'.rows ∧
      (∀ md, MemoDao.updateMemo env st { memo with modifiedDate := md } =
        MemoDao.updateMemo env st memo) := by
  refine ⟨{ st with rows := st.rows.map (fun r =>
      if r.id == i then
        { r with title := memo.title, content := memo.content, modified_date := env.now }
      else r) }, ?_, ?_, ?_⟩
  · simp [MemoDao.updateMemo, hid, MemoDao.getRdbStore, ho, hu, bind, Except.bind,
      pure, Except.pure]
  · rw [List.forall₂_map_right_iff]
    rw [List.forall₂_same]
    intro r hr
    by_cases hri : r.id = i
    · constructor
      · intro _
        simp [hri, hmono r hr hri]
      · intro hcon
        exact absurd hri hcon
    · constructor
      · intro hcon
        exact absurd hcon hri
      · intro _
        simp [hri]
  · intro md
    simp [MemoDao.updateMemo, hid]

/-- Witness for updateMemo_overwrites: updating the persisted Alpha note. -/
theorem updateMemo_overwrites_witness :
    ∃ st',
      MemoDao.updateMemo envOk stAlphaOne ⟨some 1, "new title", "new content", 0, 7⟩ =
        Except.ok ((stAlphaOne.rows.filter (fun r => r.id == 1)).length, st') ∧
      List.Forall₂ (fun old new : Row =>
        (old.id = 1 →
          new.title = "new title" ∧ new.content = "new content" ∧
          new.modified_date = envOk.now ∧ old.modified_date ≤ new.modified_date ∧
          new.created_date = old.created_date ∧ new.id = old.id) ∧
        (old.id ≠ 1 → new = old)) stAlphaOne.rows st'.rows ∧
      (∀ md, MemoDao.updateMemo envOk stAlphaOne
          { (⟨some 1, "new title", "new content", 0, 7⟩ : Memo) with modifiedDate := md } =
        MemoDao.updateMemo envOk stAlphaOne ⟨some 1, "new title", "new content", 0, 7⟩) :=
  updateMemo_overwrites envOk stAlphaOne ⟨some 1, "new title", "new content", 0, 7⟩ 1
    rfl rfl rfl (by decide)

/-- C9 (counterexample): when the preference-file open rejects, both
preference operations still return normally to their caller -- the
handle-acquisition failure does not propagate as a raised error: save leaves
the state unchanged and load returns the defaults. -/
theorem pref_open_failure_swallowed_cex :
    PreferencesHelper.saveFontSizes envPrefOpenFail psEmpty 22 16 = Except.ok psEmpty ∧
    PreferencesHelper.loadFontSizes envPrefOpenFail psEmpty = Except.ok (18, 14) := by
  refine ⟨by decide, by decide⟩

/-- C9 (amended): for every repository (DAO) operation a handle-acquisition
failure propagates as a raised error to the immediate caller, while the
preference operations absorb every failure including handle acquisition;
with the handle available, every other store failure is converted to a
data-shaped signal: sentinel -1 for add, zero count for update and delete,
empty sequence and absent value for the reads. -/
theorem propagation_policy (env : Env) (st : DbState) (memo : Memo)
    (ps : PreferencesHelper.PrefState) (kw : String) (i : Int) (t c : Nat)
    (hid : memo.id.isSome = true) :
    (env.openFails = true →
      (MemoDao.addMemo env st memo).isOk = false ∧
      (MemoDao.updateMemo env st memo).isOk = false ∧
      (MemoDao.deleteMemo env st i).isOk = false ∧
      (MemoDao.queryAllMemos env st).isOk = false ∧
      (MemoDao.queryMemosByTitle env st kw).isOk = false ∧
      (MemoDao.queryMemoById env st i).isOk = false) ∧
    (PreferencesHelper.saveFontSizes env ps t c).isOk = true ∧
    (PreferencesHelper.loadFontSizes env ps).isOk = true ∧
    (env.openFails = false →
      (env.insertFault = true → MemoDao.addMemo env st memo = Except.ok (-1, st)) ∧
      (env.updateFault = true → MemoDao.updateMemo env st memo = Except.ok (0, st)) ∧
      (env.deleteFault = true → MemoDao.deleteMemo env st i = Except.ok (0, st)) ∧
      (env.queryFault = true →
        (∃ tr, MemoDao.queryAllMemos env st = Except.ok ([], tr)) ∧
        (∃ tr, MemoDao.queryMemoById env st i = Except.ok (none, tr)))) := by
  obtain ⟨j, hj⟩ := Option.isSome_iff_exists.mp hid
  refine ⟨?_, ?_, ?_, ?_⟩
  · intro ho
    refine ⟨?_, ?_, ?_, ?_, ?_, ?_⟩
    · simp [MemoDao.addMemo, MemoDao.getRdbStore, ho, bind, Except.bind, Except.isOk,
        Except.toBool]
    · simp [MemoDao.updateMemo, hj, MemoDao.getRdbStore, ho, bind, Except.bind,
        Except.isOk, Except.toBool]
    · simp [MemoDao.deleteMemo, MemoDao.getRdbStore, ho, bind, Except.bind, Except.isOk,
        Except.toBool]
    · simp [MemoDao.queryAllMemos, MemoDao.getRdbStore, ho, bind, Except.bind,
        Except.isOk, Except.toBool]
    · cases hk : kw.isEmpty <;>
        simp [MemoDao.queryMemosByTitle, MemoDao.queryAllMemos, MemoDao.getRdbStore, ho,
          bind, Except.bind, Except.isOk, Except.toBool, hk]
    · simp [MemoDao.queryMemoById, MemoDao.getRdbStore, ho, bind, Except.bind,
        Except.isOk, Except.toBool]
  · by_cases h1 : env.prefOpenFails = true <;>
      by_cases h2 : env.prefPutTitleFault = true <;>
      by_cases h3 : env.prefPutContentFault = true <;>
      simp [PreferencesHelper.saveFontSizes, h1, h2, h3, Except.isOk, Except.toBool]
  · by_cases h1 : env.prefOpenFails = true <;>
      by_cases h2 : env.prefGetTitleFault = true <;>
      by_cases h3 : env.prefGetContentFault = true <;>
      simp [PreferencesHelper.loadFontSizes, h1, h2, h3, Except.isOk, Except.toBool]
  · intro ho
    refine ⟨?_, ?_, ?_, ?_⟩
    · intro hins
      simp [MemoDao.addMemo, MemoDao.getRdbStore, ho, hins, bind, Except.bind, pure,
        Except.pure]
    · intro hupd
      simp [MemoDao.updateMemo, hj, MemoDao.getRdbStore, ho, hupd, bind, Except.bind,
        pure, Except.pure]
    · intro hdel
      simp [MemoDao.deleteMemo, MemoDao.getRdbStore, ho, hdel, bind, Except.bind, pure,
        Except.pure]
    · intro hq
      refine ⟨⟨⟨0, 0⟩, ?_⟩, ⟨⟨0, 0⟩, ?_⟩⟩
      · simp [MemoDao.queryAllMemos, MemoDao.getRdbStore, ho, hq, bind, Except.bind,
          pure, Except.pure]
      · simp [MemoDao.queryMemoById, MemoDao.getRdbStore, ho, hq, bind, Except.bind,
          pure, Except.pure]

/-- Witness for propagation_policy at a concrete memo, store and
open-failing environment. -/
theorem propagation_policy_witness :
    (({ envOk with openFails := true } : Env).openFails = true →
      (MemoDao.addMemo { envOk with openFails := true } stAlphaOne memoEdit).isOk = false ∧
      (MemoDao.updateMemo { envOk with openFails := true } stAlphaOne memoEdit).isOk = false ∧
      (MemoDao.deleteMemo { envOk with openFails := true } stAlphaOne 1).isOk = false ∧
      (MemoDao.queryAllMemos { envOk with openFails := true } stAlphaOne).isOk = false ∧
      (MemoDao.queryMemosByTitle { envOk with openFails := true } stAlphaOne "Al").isOk = false ∧
      (MemoDao.queryMemoById { envOk with openFails := true } stAlphaOne 1).isOk = false) ∧
    (PreferencesHelper.saveFontSizes { envOk with openFails := true } psEmpty 22 16).isOk = true ∧
    (PreferencesHelper.loadFontSizes { envOk with openFails := true } psEmpty).isOk = true ∧
    (({ envOk with openFails := true } : Env).openFails = false →
      (({ envOk with openFails := true } : Env).insertFault = true →
        MemoDao.addMemo { envOk with openFails := true } stAlphaOne memoEdit =
          Except.ok (-1, stAlphaOne)) ∧
      (({ envOk with openFails := true } : Env).updateFault = true →
        MemoDao.updateMemo { envOk with openFails := true } stAlphaOne memoEdit =
          Except.ok (0, stAlphaOne)) ∧
      (({ envOk with openFails := true } : Env).deleteFault = true →
        MemoDao.deleteMemo { envOk with openFails := true } stAlphaOne 1 =
          Except.ok (0, stAlphaOne)) ∧
      (({ envOk with openFails := true } : Env).queryFault = true →
        (∃ tr, MemoDao.queryAllMemos { envOk with openFails := true } stAlphaOne =
          Except.ok ([], tr)) ∧
        (∃ tr, MemoDao.queryMemoById { envOk with openFails := true } stAlphaOne 1 =
          Except.ok (none, tr)))) :=
  propagation_policy { envOk with openFails := true } stAlphaOne memoEdit psEmpty "Al" 1 22 16 rfl

/-- With a bound context, searchMemos replaces the memo list with the list
derived from the store for the given keyword and clears isLoading. -/
theorem searchMemos_memos (env : Env) (st : DbState) (vm : VM) (kw : String)
    (hctx : vm.ctxBound = true) :
    (MemoViewModel.searchMemos env st vm kw).memos = memosFor env st kw ∧
    (MemoViewModel.searchMemos env st vm kw).isLoading = false ∧
    (MemoViewModel.searchMemos env st vm kw).searchKeyword = kw.trim := by
  unfold MemoViewModel.searchMemos memosFor
  rw [hctx]
  cases h : MemoDao.queryMemosByTitle env st kw.trim with
  | ok v =>
    obtain ⟨ms, tr⟩ := v
    simp [h]
  | error e => simp [h]

/-- C10: after the context is bound, each asynchronous ViewModel operation
resolves with isLoading false, on the success path and on every internal
fault path, across all environments, stores and inputs. -/
theorem isLoading_cleared (env : Env) (st : DbState) (ps : PreferencesHelper.PrefState)
    (vm : VM) (kw title content : String) (i : Int)
    (hctx : vm.ctxBound = true) :
    (MemoViewModel.loadInitialData env st ps vm).isLoading = false ∧
    (MemoViewModel.searchMemos env st vm kw).isLoading = false ∧
    (MemoViewModel.loadMemoById env st vm i).isLoading = false ∧
    (MemoViewModel.saveCurrentMemo env st vm title content).2.1.isLoading = false ∧
    (MemoViewModel.deleteMemo env st vm i).1.isLoading = false := by
  refine ⟨?_, ?_, ?_, ?_, ?_⟩
  · simp [MemoViewModel.loadInitialData, hctx]
  · exact (searchMemos_memos env st vm kw hctx).2.1
  · unfold MemoViewModel.loadMemoById
    rw [hctx]
    cases h : MemoDao.queryMemoById env st i with
    | ok v => obtain ⟨res, tr⟩ := v; simp [h]
    | error e => simp [h]
  · unfold MemoViewModel.saveCurrentMemo
    rw [hctx]
    simp only [Bool.true_eq_false, if_false]
    cases hcm : vm.currentMemo with
    | none =>
      unfold MemoViewModel.saveAddArm
      cases h : MemoDao.addMemo env st (Memo.construct title content none none none env.now) with
      | ok v =>
        obtain ⟨rid, st'⟩ := v
        by_cases hr : 0 < rid <;> simp [hcm, h, hr]
      | error e => simp [hcm, h]
    | some m =>
      cases hmid : m.id with
      | none =>
        unfold MemoViewModel.saveAddArm
        cases h : MemoDao.addMemo env st (Memo.construct title content none none none env.now) with
        | ok v =>
          obtain ⟨rid, st'⟩ := v
          by_cases hr : 0 < rid <;> simp [hcm, hmid, h, hr]
        | error e => simp [hcm, hmid, h]
      | some j =>
        unfold MemoViewModel.saveEditArm
        cases h : MemoDao.updateMemo env st
            (Memo.construct title content (some j) (some m.createdDate) (some env.now) env.now) with
        | ok v =>
          obtain ⟨n, st'⟩ := v
          by_cases hn : 0 < n <;> simp [hcm, hmid, h, hn]
        | error e => simp [hcm, hmid, h]
  · unfold MemoViewModel.deleteMemo
    rw [hctx]
    simp only [Bool.true_eq_false, if_false]
    cases h : MemoDao.deleteMemo env st i with
    | ok v =>
      obtain ⟨n, st'⟩ := v
      by_cases hn : 0 < n <;> simp [h, hn]
    | error e => simp [h]

/-- Witness for isLoading_cleared on the fresh ViewModel state over the Alpha
store. -/
theorem isLoading_cleared_witness :
    (MemoViewModel.loadInitialData envOk stAlphaOne psEmpty vmFresh).isLoading = false ∧
    (MemoViewModel.searchMemos envOk stAlphaOne vmFresh "Al").isLoading = false ∧
    (MemoViewModel.loadMemoById envOk stAlphaOne vmFresh 1).isLoading = false ∧
    (MemoViewModel.saveCurrentMemo envOk stAlphaOne vmFresh "t" "c").2.1.isLoading = false ∧
    (MemoViewModel.deleteMemo envOk stAlphaOne vmFresh 1).1.isLoading = false :=
  isLoading_cleared envOk stAlphaOne psEmpty vmFresh "Al" "t" "c" 1 rfl

/-- C3 (counterexample): the edit path is not taken exactly when currentMemo
is present -- the code additionally requires a defined id.  Here currentMemo
is present (a draft carrying no id), yet save takes the add path: it inserts
a brand-new row (the store grows from one row to two) and reports success,
which the update path could never do on this store. -/
theorem save_edit_iff_present_cex :
    vmEditNoId.currentMemo.isSome = true ∧
    (MemoViewModel.saveCurrentMemo envOk stAlphaOne vmEditNoId "T" "C").1 = true ∧
    (MemoViewModel.saveCurrentMemo envOk stAlphaOne vmEditNoId "T" "C").2.2.rows =
      stAlphaOne.rows ++ [⟨2, "T", "C", 100, 100⟩] := by
  refine ⟨by decide, by decide, by decide⟩

/-- With a bound context, saveCurrentMemo reduces to its add arm whenever
currentMemo is absent or carries no id. -/
theorem saveCurrentMemo_to_addArm (env : Env) (st : DbState) (vm : VM)
    (title content : String) (hctx : vm.ctxBound = true)
    (hnone : ∀ m, vm.currentMemo = some m → m.id = none) :
    MemoViewModel.saveCurrentMemo env st vm title content =
      MemoViewModel.saveAddArm env st { vm with isLoading := true } title content := by
  unfold MemoViewModel.saveCurrentMemo
  rw [hctx]
  cases hcm : vm.currentMemo with
  | none => simp [hcm]
  | some m =>
    have hmid := hnone m hcm
    simp [hcm, hmid]

/-- With a bound context, saveCurrentMemo reduces to its edit arm whenever
currentMemo is present with a defined id. -/
theorem saveCurrentMemo_to_editArm (env : Env) (st : DbState) (vm : VM)
    (title content : String) (m : Memo) (i : Int) (hctx : vm.ctxBound = true)
    (hm : vm.currentMemo = some m) (hmid : m.id = some i) :
    MemoViewModel.saveCurrentMemo env st vm title content =
      MemoViewModel.saveEditArm env st { vm with isLoading := true } title content m i := by
  unfold MemoViewModel.saveCurrentMemo
  rw [hctx]
  simp [hm, hmid]

/-- Behaviour of the edit arm with the handle available: the repository
update is called on the rebuilt note, success is exactly a positive affected
count, the store the arm returns is the update's store with as many rows as
before, and the visible list is re-derived from that store on success and
untouched on failure. -/
theorem saveEditArm_spec (env : Env) (st : DbState) (vm1 : VM) (title content : String)
    (m : Memo) (i : Int) (hctx1 : vm1.ctxBound = true) (ho : env.openFails = false) :
    ∃ n st', MemoDao.updateMemo env st
        (Memo.construct title content (some i) (some m.createdDate) (some env.now) env.now) =
        Except.ok (n, st') ∧
      (MemoViewModel.saveEditArm env st vm1 title content m i).1 = decide (0 < n) ∧
      (MemoViewModel.saveEditArm env st vm1 title content m i).2.2 = st' ∧
      st'.rows.length = st.rows.length ∧
      (0 < n → (MemoViewModel.saveEditArm env st vm1 title content m i).2.1.memos =
          memosFor env st' vm1.searchKeyword) ∧
      (¬ 0 < n →
        (MemoViewModel.saveEditArm env st vm1 title content m i).2.1.memos = vm1.memos) := by
  by_cases hu : env.updateFault = true
  · have hup : MemoDao.updateMemo env st
        (Memo.construct title content (some i) (some m.createdDate) (some env.now) env.now) =
        Except.ok (0, st) := by
      simp [MemoDao.updateMemo, Memo.construct, MemoDao.getRdbStore, ho, hu, bind,
        Except.bind, pure, Except.pure]
    refine ⟨0, st, hup, ?_, ?_, rfl, fun hcon => absurd hcon (by omega), fun _ => ?_⟩ <;>
      unfold MemoViewModel.saveEditArm <;> simp [hup]
  · replace hu : env.updateFault = false := by
      cases h : env.updateFault
      · rfl
      · exact absurd h hu
    have hup : MemoDao.updateMemo env st
        (Memo.construct title content (some i) (some m.createdDate) (some env.now) env.now) =
        Except.ok ((st.rows.filter (fun r => r.id == i)).length,
          { st with rows := st.rows.map (fun r =>
              if r.id == i then
                { r with title := title, content := content, modified_date := env.now }
              else r) }) := by
      simp [MemoDao.updateMemo, Memo.construct, MemoDao.getRdbStore, ho, hu, bind,
        Except.bind, pure, Except.pure]
    refine ⟨(st.rows.filter (fun r => r.id == i)).length,
      { st with rows := st.rows.map (fun r =>
          if r.id == i then
            { r with title := title, content := content, modified_date := env.now }
          else r) }, hup, ?_, ?_, by simp, ?_, ?_⟩
    · by_cases hn : 0 < (st.rows.filter (fun r => r.id == i)).length <;>
        · unfold MemoViewModel.saveEditArm
          simp [hup, hn]
    · by_cases hn : 0 < (st.rows.filter (fun r => r.id == i)).length <;>
        · unfold MemoViewModel.saveEditArm
          simp [hup, hn]
    · intro hn
      unfold MemoViewModel.saveEditArm
      have hsm := searchMemos_memos env
        { st with rows := st.rows.map (fun r =>
            if r.id == i then
              { r with title := title, content := content, modified_date := env.now }
            else r) } vm1 vm1.searchKeyword hctx1
      simp [hup, hn]
      simpa using hsm.1
    · intro hn
      unfold MemoViewModel.saveEditArm
      simp [hup, hn]

/-- Behaviour of the add arm with the handle available: the repository add is
called on a freshly constructed note, success is exactly a positive returned
id, on success the store grows by exactly one row and the visible list is
re-derived from the grown store, and on failure the store and the visible
list are untouched. -/
theorem saveAddArm_spec (env : Env) (st : DbState) (vm1 : VM) (title content : String)
    (hctx1 : vm1.ctxBound = true) (ho : env.openFails = false) :
    ∃ rid st', MemoDao.addMemo env st (Memo.construct title content none none none env.now) =
        Except.ok (rid, st') ∧
      (MemoViewModel.saveAddArm env st vm1 title content).1 = decide (0 < rid) ∧
      (MemoViewModel.saveAddArm env st vm1 title content).2.2 = st' ∧
      (0 < rid → st'.rows.length = st.rows.length + 1 ∧
        (MemoViewModel.saveAddArm env st vm1 title content).2.1.memos =
          memosFor env st' vm1.searchKeyword) ∧
      (¬ 0 < rid →
        (MemoViewModel.saveAddArm env st vm1 title content).2.1.memos = vm1.memos) := by
  by_cases hins : env.insertFault = true
  · have hadd : MemoDao.addMemo env st (Memo.construct title content none none none env.now) =
        Except.ok (-1, st) := by
      simp [MemoDao.addMemo, MemoDao.getRdbStore, ho, hins, bind, Except.bind, pure,
        Except.pure]
    refine ⟨-1, st, hadd, ?_, ?_, fun hcon => absurd hcon (by omega), fun _ => ?_⟩ <;>
      unfold MemoViewModel.saveAddArm <;> simp [hadd]
  · replace hins : env.insertFault = false := by
      cases h : env.insertFault
      · rfl
      · exact absurd h hins
    have hadd : MemoDao.addMemo env st (Memo.construct title content none none none env.now) =
        Except.ok (st.nextId,
          { rows := st.rows ++ [⟨st.nextId, title, content, env.now, env.now⟩],
            nextId := st.nextId + 1 }) := by
      simp [MemoDao.addMemo, MemoDao.getRdbStore, ho, hins, bind, Except.bind, pure,
        Except.pure, Memo.construct]
    refine ⟨st.nextId,
      { rows := st.rows ++ [⟨st.nextId, title, content, env.now, env.now⟩],
        nextId := st.nextId + 1 }, hadd, ?_, ?_, ?_, ?_⟩
    · by_cases hr : 0 < st.nextId <;>
        · unfold MemoViewModel.saveAddArm
          simp [hadd, hr]
    · by_cases hr : 0 < st.nextId <;>
        · unfold MemoViewModel.saveAddArm
          simp [hadd, hr]
    · intro hr
      refine ⟨by simp, ?_⟩
      unfold MemoViewModel.saveAddArm
      have hsm := searchMemos_memos env
        { rows := st.rows ++ [⟨st.nextId, title, content, env.now, env.now⟩],
          nextId := st.nextId + 1 } vm1 vm1.searchKeyword hctx1
      simp [hadd, hr]
      simpa using hsm.1
    · intro hr
      unfold MemoViewModel.saveAddArm
      simp [hadd, hr]

/-- C3 (amended): with a bound context and the handle available, save takes
the edit path exactly when currentMemo is present AND carries a defined id:
it then builds a note with the original id and createdDate plus a fresh
modifiedDate, calls repository update, succeeds iff the affected count is
positive, and preserves the row count; in every other currentMemo shape it
calls repository add, succeeding iff the returned id is positive and then
growing the store by one row; in either case, on success the visible list is
re-derived from the post-mutation store by a search with the current
keyword, and on failure the list is left unchanged. -/
theorem saveCurrentMemo_paths (env : Env) (st : DbState) (vm : VM) (title content : String)
    (hctx : vm.ctxBound = true) (ho : env.openFails = false) :
    (∀ m i, vm.currentMemo = some m → m.id = some i →
      ∃ n st', MemoDao.updateMemo env st
          (Memo.construct title content (some i) (some m.createdDate) (some env.now) env.now) =
          Except.ok (n, st') ∧
        (MemoViewModel.saveCurrentMemo env st vm title content).1 = decide (0 < n) ∧
        (MemoViewModel.saveCurrentMemo env st vm title content).2.2 = st' ∧
        st'.rows.length = st.rows.length ∧
        (0 < n →
          (MemoViewModel.saveCurrentMemo env st vm title content).2.1.memos =
            memosFor env st' vm.searchKeyword) ∧
        (¬ 0 < n →
          (MemoViewModel.saveCurrentMemo env st vm title content).2.1.memos = vm.memos)) ∧
    ((∀ m, vm.currentMemo = some m → m.id = none) →
      ∃ rid st', MemoDao.addMemo env st (Memo.construct title content none none none env.now) =
          Except.ok (rid, st') ∧
        (MemoViewModel.saveCurrentMemo env st vm title content).1 = decide (0 < rid) ∧
        (MemoViewModel.saveCurrentMemo env st vm title content).2.2 = st' ∧
        (0 < rid → st'.rows.length = st.rows.length + 1 ∧
          (MemoViewModel.saveCurrentMemo env st vm title content).2.1.memos =
            memosFor env st' vm.searchKeyword) ∧
        (¬ 0 < rid →
          (MemoViewModel.saveCurrentMemo env st vm title content).2.1.memos = vm.memos)) := by
  constructor
  · intro m i hm hmid
    rw [saveCurrentMemo_to_editArm env st vm title content m i hctx hm hmid]
    have h := saveEditArm_spec env st { vm with isLoading := true } title content m i
      (by simpa using hctx) ho
    simpa using h
  · intro hnone
    rw [saveCurrentMemo_to_addArm env st vm title content hctx hnone]
    have h := saveAddArm_spec env st { vm with isLoading := true } title content
      (by simpa using hctx) ho
    simpa using h

/-- Witness for saveCurrentMemo_paths on the edit state over the Alpha
store. -/
theorem saveCurrentMemo_paths_witness :
    ∃ n st', MemoDao.updateMemo envOk stAlphaOne
        (Memo.construct "T" "C" (some 1) (some memoEdit.createdDate) (some envOk.now) envOk.now) =
        Except.ok (n, st') ∧
      (MemoViewModel.saveCurrentMemo envOk stAlphaOne vmEdit "T" "C").1 = decide (0 < n) ∧
      (MemoViewModel.saveCurrentMemo envOk stAlphaOne vmEdit "T" "C").2.2 = st' ∧
      st'.rows.length = stAlphaOne.rows.length ∧
      (0 < n →
        (MemoViewModel.saveCurrentMemo envOk stAlphaOne vmEdit "T" "C").2.1.memos =
          memosFor envOk st' vmEdit.searchKeyword) ∧
      (¬ 0 < n →
        (MemoViewModel.saveCurrentMemo envOk stAlphaOne vmEdit "T" "C").2.1.memos =
          vmEdit.memos) :=
  (saveCurrentMemo_paths envOk stAlphaOne vmEdit "T" "C" rfl rfl).1 memoEdit 1 rfl rfl

/-- Boolean equality of characters is symmetric. -/
theorem char_beq_comm (a b : Char) : (a == b) = (b == a) := by
  by_cases h : a = b
  · subst h; rfl
  · have h' : ¬ b = a := fun hb => h hb.symm
    simp [beq_iff_eq, h, h']

/-- Unfolding likeAux at a leading percent: try the rest of the pattern
against every suffix. -/
theorem likeAux_percent_cons (p s : List Char) :
    likeAux ('%' :: p) s = s.tails.any (fun t => likeAux p t) := by
  simp [likeAux]

/-- Unfolding likeAux at an ordinary pattern character against the empty
string. -/
theorem likeAux_char_nil (c : Char) (p : List Char) (hc1 : ¬ c = '%') (hc2 : ¬ c = '_') :
    likeAux (c :: p) [] = false := by
  simp [likeAux, hc1, hc2]

/-- Unfolding likeAux at an ordinary pattern character against a nonempty
string. -/
theorem likeAux_char_cons (c : Char) (p : List Char) (d : Char) (t : List Char)
    (hc1 : ¬ c = '%') (hc2 : ¬ c = '_') :
    likeAux (c :: p) (d :: t) = ((c.toLower == d.toLower) && likeAux p t) := by
  simp [likeAux, hc1, hc2]

/-- A lone percent pattern matches every string. -/
theorem likeAux_percent_nil (s : List Char) : likeAux ['%'] s = true := by
  rw [likeAux_percent_cons, List.any_eq_true]
  exact ⟨[], (List.mem_tails _ _).mpr List.nil_suffix, rfl⟩

/-- For a wildcard-free keyword, the pattern keyword-then-percent matches a
string exactly when the lowered keyword is a prefix of the lowered string. -/
theorem likeAux_append_percent (kw : List Char) (hwc : wildcardFreeL kw = true) :
    ∀ s : List Char, likeAux (kw ++ ['%']) s =
      ((s.map Char.toLower).take kw.length == kw.map Char.toLower) := by
  induction kw with
  | nil =>
    intro s
    simpa using likeAux_percent_nil s
  | cons c kw' ih =>
    simp only [wildcardFreeL, List.all_cons, Bool.and_eq_true, Bool.not_eq_true',
      beq_eq_false_iff_ne, ne_eq] at hwc
    obtain ⟨⟨hc1, hc2⟩, hrest⟩ := hwc
    have hrest' : wildcardFreeL kw' = true := by
      simp [wildcardFreeL, hrest]
    intro s
    cases s with
    | nil =>
      rw [List.cons_append, likeAux_char_nil c (kw' ++ ['%']) hc1 hc2]
      simp
    | cons d t =>
      rw [List.cons_append, likeAux_char_cons c (kw' ++ ['%']) d t hc1 hc2, ih hrest' t]
      simp only [List.map_cons, List.length_cons, List.take_succ_cons, List.cons_beq_cons]
      rw [char_beq_comm c.toLower d.toLower]

/-- For a wildcard-free keyword, the percent-keyword-percent pattern matches
a string exactly when the lowered keyword occurs inside the lowered string. -/
theorem likeAux_pattern_contains (kw : List Char) (hwc : wildcardFreeL kw = true) :
    ∀ s : List Char, likeAux ('%' :: (kw ++ ['%'])) s =
      containsSub (kw.map Char.toLower) (s.map Char.toLower) := by
  intro s
  induction s with
  | nil =>
    rw [likeAux_percent_cons]
    simp only [List.tails, List.any_cons, List.any_nil, Bool.or_false]
    rw [likeAux_append_percent kw hwc []]
    simp [containsSub, List.nil_beq_iff]
  | cons d t ih =>
    rw [likeAux_percent_cons, List.tails_cons, List.any_cons, ← likeAux_percent_cons, ih,
      likeAux_append_percent kw hwc (d :: t)]
    simp [containsSub, List.length_map]

/-- For wildcard-free keywords the LIKE match used by the DAO coincides with
case-ignoring substring containment. -/
theorem likeMatch_eq_containsCI (title kw : String) (hwc : wildcardFree kw = true) :
    likeMatch title kw = containsCI title kw :=
  likeAux_pattern_contains kw.toList hwc title.toList

/-- C7 (counterexample): matching is not literal-substring matching: LIKE is
case-insensitive, so the keyword letter a in lower case returns the note
titled with the upper-case letter A, whose title does not contain the
keyword as a substring. -/
theorem queryByTitle_case_cex :
    MemoDao.queryMemosByTitle envOk stUpperA "a" =
      Except.ok ([rowToMemo ⟨1, "A", "", 0, 3⟩], ⟨1, 1⟩) ∧
    subStr "A" "a" = false := by
  refine ⟨by decide, by decide⟩

/-- C7 (amended): for every non-empty keyword free of LIKE wildcards, with no
faults, queryMemosByTitle returns exactly the notes whose title contains the
keyword as a substring ignoring ASCII letter case, ordered by modifiedDate
descending. -/
theorem queryByTitle_substring_sorted (env : Env) (st : DbState) (kw : String)
    (hkw : kw.isEmpty = false) (hwc : wildcardFree kw = true)
    (ho : env.openFails = false) (hq : env.queryFault = false)
    (hp : env.parseFaultAt = none) :
    ∃ ms tr, MemoDao.queryMemosByTitle env st kw = Except.ok (ms, tr) ∧
      ms.Perm ((st.rows.filter (fun r => containsCI r.title kw)).map rowToMemo) ∧
      List.Sorted (fun a b : Memo => b.modifiedDate ≤ a.modifiedDate) ms ∧
      ∀ m ∈ ms, containsCI m.title kw = true := by
  have hfilter : st.rows.filter (fun r => likeMatch r.title kw) =
      st.rows.filter (fun r => containsCI r.title kw) :=
    List.filter_congr (fun r _ => likeMatch_eq_containsCI r.title kw hwc)
  refine ⟨(sortByModifiedDesc (st.rows.filter (fun r => likeMatch r.title kw))).map rowToMemo,
    ⟨1, 1⟩, ?_, ?_, ?_, ?_⟩
  · simp [MemoDao.queryMemosByTitle, hkw, MemoDao.getRdbStore, ho, hq, hp,
      MemoDao.parseResultSet, bind, Except.bind, pure, Except.pure]
  · rw [hfilter]
    exact (List.perm_insertionSort rowDescRel _).map rowToMemo
  · have hs := List.sorted_insertionSort rowDescRel
      (st.rows.filter (fun r => likeMatch r.title kw))
    exact hs.map rowToMemo (fun a b hab => hab)
  · intro m hm
    rw [List.mem_map] at hm
    obtain ⟨r, hr, rfl⟩ := hm
    rw [sortByModifiedDesc, List.mem_insertionSort, List.mem_filter] at hr
    rw [likeMatch_eq_containsCI r.title kw hwc] at hr
    exact hr.2

/-- Witness for queryByTitle_substring_sorted: the Alpha, Beta, Alphabet
store searched for Alpha. -/
theorem queryByTitle_substring_sorted_witness :
    ∃ ms tr, MemoDao.queryMemosByTitle envOk stAlpha3 "Alpha" = Except.ok (ms, tr) ∧
      ms.Perm ((stAlpha3.rows.filter (fun r => containsCI r.title "Alpha")).map rowToMemo) ∧
      List.Sorted (fun a b : Memo => b.modifiedDate ≤ a.modifiedDate) ms ∧
      ∀ m ∈ ms, containsCI m.title "Alpha" = true :=
  queryByTitle_substring_sorted envOk stAlpha3 "Alpha" rfl (by decide) rfl rfl rfl

end MemoApp
